import Mathlib

/-!
Shallow embedding of the `torch-build` build-time resolution engine
(`src/probe.rs`, `src/library.rs`, `src/cuda.rs`) together with theorems
checking the natural-language specification against it.

Modelling conventions:
* Filesystem paths are component lists (`Path := List String`); `Path::join`
  with a single component is list append.  The filesystem is an explicit
  list of existing paths, and `exists()` is membership.
* The embedding fixes `target_os = "linux"` branches of the `cfg_if!` blocks,
  which is the platform the spec's claims speak about.
* Environment state (`LIBTORCH`, `ROCM_HOME`, `CUDA_HOME`, `CUDNN_HOME`,
  `LIBTORCH_USE_PYTORCH`, the `download-libtorch` feature, ...) is collected
  in an explicit `EnvConfig` record; external collaborators (the Python
  probe subprocess, the network download) are passed in as `Except` values.
* Rust `Result` becomes `Except` with per-component error types; Rust panics
  (`unwrap` on `None`) are modelled as a distinct `panic` outcome.
-/

instance {ε α : Type} [DecidableEq ε] [DecidableEq α] : DecidableEq (Except ε α) := fun x y =>
  match x, y with
  | .error e, .error f => decidable_of_iff (e = f) (by simp)
  | .error _, .ok _ => isFalse (by simp)
  | .ok _, .error _ => isFalse (by simp)
  | .ok a, .ok b => decidable_of_iff (a = b) (by simp)

namespace TorchBuild

/-- A filesystem path, as a list of components. `p.flatten c` is `p ++ [c]`. -/
abbrev Path := List String

/-- Existence check of a path against an explicit filesystem (the set of
paths that exist, given as a list). -/
def pexists (fs : List Path) (p : Path) : Bool :=
  decide (p ∈ fs)

/-- The `/usr/lib/libtorch.so` well-known system path checked on Linux. -/
def usrLibtorchSo : Path := ["usr", "lib", "libtorch.so"]

/-- The `/usr/include` path filtered out of include paths on Linux. -/
def usrInclude : Path := ["usr", "include"]

/-- Environment/configuration state read by the resolver
(`src/env.rs` statics, plus the `download-libtorch` cargo feature). -/
structure EnvConfig where
  /-- `LIBTORCH` environment variable. -/
  libtorch : Option Path
  /-- `LIBTORCH_USE_PYTORCH` environment variable (set and not `"0"`). -/
  libtorchUsePytorch : Bool
  /-- whether the `download-libtorch` cargo feature is enabled. -/
  downloadFeature : Bool
  /-- resolved `ROCM_HOME` (env var / `hipcc` / `/opt/rocm` guess). -/
  rocmHome : Option Path
  /-- resolved `CUDA_HOME` (env var / `nvcc` / `/usr/local/cuda` guess). -/
  cudaHome : Option Path
  /-- resolved `CUDNN_HOME` (or `CUDNN_PATH`). -/
  cudnnHome : Option Path
  deriving DecidableEq, Repr

/-- Result of the Python `probe_pytorch` subprocess (`struct ProbePyTorch`
in `src/probe.rs`). -/
structure ProbePyTorch where
  include_dirs : List Path
  lib_dir : Path
  use_cxx11_abi : Bool
  deriving DecidableEq, Repr

/-- Errors of the `probe_pytorch` subprocess boundary (spawn failure, parse
failure, missing keys, version mismatch), abstracted to their message. -/
abbrev PyProbeErr := String

/-- Errors of the libtorch download collaborator, abstracted to the message. -/
abbrev DownloadErr := String

/-- Errors of `find_or_download_libtorch_dir` / `probe_libtorch`. -/
inductive FindErr where
  /-- `bail!("unable to find libtorch")` -/
  | notFound
  /-- an error propagated out of `probe_pytorch()` -/
  | probeScript (msg : PyProbeErr)
  /-- `download_libtorch()` failed (`"unable to download libtorch"` context) -/
  | downloadFailed (msg : DownloadErr)
  deriving DecidableEq, Repr

/-- `enum Probe` of `src/probe.rs`: how the libtorch directory was found. -/
inductive Probe where
  | manual (dir : Path)
  | system (dir : Path)
  | pytorch (p : ProbePyTorch)
  | download (dir : Path)
  deriving DecidableEq, Repr

/-- `find_or_download_libtorch_dir` of `src/probe.rs` (Linux, so the
`/usr/lib/libtorch.so` check is compiled in).  The Python probe and the
download collaborator are passed in as `Except` results. -/
def find_or_download_libtorch_dir (c : EnvConfig) (fs : List Path)
    (pytorchProbe : Except PyProbeErr ProbePyTorch)
    (downloadRes : Except DownloadErr Path) : Except FindErr Probe :=
  match c.libtorch with
  | some dir => .ok (.manual dir)
  | none =>
    if pexists fs usrLibtorchSo then
      .ok (.system ["usr"])
    else if c.libtorchUsePytorch then
      match pytorchProbe with
      | .ok p => .ok (.pytorch p)
      | .error e => .error (.probeScript e)
    else if c.downloadFeature then
      match downloadRes with
      | .ok dir => .ok (.download dir)
      | .error e => .error (.downloadFailed e)
    else
      .error .notFound

/-- `struct HipApi` of `src/library.rs`. -/
structure HipApi where
  rocm_home : Path
  miopen_home : Path
  deriving DecidableEq, Repr

/-- `struct CudaApi` of `src/library.rs`. -/
structure CudaApi where
  cuda_home : Path
  cudnn_home : Option Path
  deriving DecidableEq, Repr

/-- `struct CudaSplitApi` of `src/library.rs`. -/
structure CudaSplitApi where
  cuda_home : Path
  cudnn_home : Option Path
  deriving DecidableEq, Repr

/-- `enum Api` of `src/library.rs`. -/
inductive Api where
  | none
  | hip (a : HipApi)
  | cuda (a : CudaApi)
  | cudaSplit (a : CudaSplitApi)
  deriving DecidableEq, Repr

/-- `Api::is_cuda_api_available`: `!matches!(self, Self::None)`. -/
def Api.is_cuda_api_available : Api → Bool
  | .none => false
  | _ => true

/-- `Api::is_hip`. -/
def Api.is_hip : Api → Bool
  | .hip _ => true
  | _ => false

/-- `probe_library_file` closure inside `probe_cuda_api` (Linux branch:
look for `lib<name>.so` inside the lib directory). -/
def probe_library_file (fs : List Path) (lib_dir : Path) (name : String) : Bool :=
  pexists fs (lib_dir ++ ["lib" ++ name ++ ".so"])

/-- `probe_cuda_api` of `src/probe.rs`.  The second component records
whether the non-fatal `warn!` ("CUDA_HOME is set ... but no CUDA runtime
found for libtorch") fired. -/
def probe_cuda_api (c : EnvConfig) (fs : List Path) (lib_dir : Path) : Api × Bool :=
  match c.rocmHome, probe_library_file fs lib_dir "torch_hip" with
  | some rocmHome, true =>
    (.hip { rocm_home := rocmHome, miopen_home := rocmHome ++ ["miopen"] }, false)
  | _, _ =>
    match c.cudaHome with
    | some cudaHome =>
      if probe_library_file fs lib_dir "torch_cuda_cu"
          && probe_library_file fs lib_dir "torch_cuda_cpp" then
        (.cudaSplit { cuda_home := cudaHome, cudnn_home := c.cudnnHome }, false)
      else if probe_library_file fs lib_dir "torch_cuda" then
        (.cuda { cuda_home := cudaHome, cudnn_home := c.cudnnHome }, false)
      else
        (.none, true)
    | Option.none => (.none, false)

/-- `probe_cxx11_abi` of `src/probe.rs` (Linux branch): the
`LIBTORCH_CXX11_ABI` override wins; else the `use_cxx11_abi` sentinel file
under `OUT_DIR`. -/
def probe_cxx11_abi (override : Option Bool) (fs : List Path) (outDir : Path) : Bool :=
  match override with
  | some val => val
  | none => pexists fs (outDir ++ ["use_cxx11_abi"])

/-- `struct Library` of `src/library.rs`. -/
structure Library where
  include_dirs : List Path
  lib_dir : Path
  api : Api
  use_cxx11_abi : Bool
  deriving DecidableEq, Repr

/-- `probe_libtorch_private` of `src/probe.rs`: resolve the directory and
derive the `Library`. -/
def probe_libtorch_private (c : EnvConfig) (fs : List Path)
    (cxx11Override : Option Bool) (outDir : Path)
    (pytorchProbe : Except PyProbeErr ProbePyTorch)
    (downloadRes : Except DownloadErr Path) : Except FindErr Library :=
  match find_or_download_libtorch_dir c fs pytorchProbe downloadRes with
  | .error e => .error e
  | .ok (.manual libtorch_dir)
  | .ok (.system libtorch_dir)
  | .ok (.download libtorch_dir) =>
    let lib_dir := libtorch_dir ++ ["lib"]
    let use_cxx11_abi := probe_cxx11_abi cxx11Override fs outDir
    let api := (probe_cuda_api c fs lib_dir).1
    let base := libtorch_dir ++ ["include"]
    let base_dirs := [base, base ++ ["torch", "csrc", "api", "include"],
      base ++ ["TH"], base ++ ["THC"]]
    let thh_include_dir := if api.is_hip then [base ++ ["thh"]] else []
    let include_dirs := base_dirs ++ thh_include_dir
    .ok { api, use_cxx11_abi, include_dirs, lib_dir }
  | .ok (.pytorch p) =>
    let api := (probe_cuda_api c fs p.lib_dir).1
    .ok { include_dirs := p.include_dirs, lib_dir := p.lib_dir, api,
          use_cxx11_abi := p.use_cxx11_abi }

/-- Errors of the `Library` accessors in `src/library.rs`. -/
inductive LibErr where
  /-- `bail!("CUDA runtime is available")` — GPU requested but `Api::None`. -/
  | gpuUnavailable
  /-- `bail!("TODO")` — neither `lib64` nor `lib` exists under a CUDA/cuDNN home. -/
  | todo
  deriving DecidableEq, Repr

/-- `Library::is_cuda_api_available`. -/
def Library.is_cuda_api_available (self : Library) : Bool :=
  self.api.is_cuda_api_available

/-- The `extra_includes` computation of `Library::include_paths` (the
GPU-specific include directories per `Api` variant). -/
def extraIncludeDirs : Api → Except LibErr (List Path)
  | .hip a => pure [a.rocm_home ++ ["include"], a.miopen_home ++ ["include"]]
  | .cuda a =>
    pure ([a.cuda_home ++ ["include"]] ++ (a.cudnn_home.map (· ++ ["include"])).toList)
  | .cudaSplit a =>
    pure ([a.cuda_home ++ ["include"]] ++ (a.cudnn_home.map (· ++ ["include"])).toList)
  | .none => throw .gpuUnavailable

/-- `Library::include_paths` of `src/library.rs` (Linux: the final list is
filtered to drop `/usr/include`). -/
def Library.include_paths (self : Library) (use_cuda_api : Option Bool) :
    Except LibErr (List Path) :=
  let use := use_cuda_api.getD self.is_cuda_api_available
  let extra := if use then extraIncludeDirs self.api else pure []
  extra.map fun e => (self.include_dirs ++ e).filter fun p => decide (p ≠ usrInclude)

/-- The CUDA/cuDNN lib-dir guessing of `Library::link_paths` (Linux branch):
`lib64` if it exists, else `lib`, else `bail!("TODO")`. -/
def guessLibDir (fs : List Path) (home : Path) : Except LibErr Path :=
  if pexists fs (home ++ ["lib64"]) then .ok (home ++ ["lib64"])
  else if pexists fs (home ++ ["lib"]) then .ok (home ++ ["lib"])
  else .error .todo

/-- Shared CUDA/CudaSplit arm of `Library::link_paths`: guess the CUDA lib
directory, optionally the cuDNN one, and chain them. -/
def cudaLinkDirs (fs : List Path) (cuda_home : Path) (cudnn_home : Option Path) :
    Except LibErr (List Path) :=
  match guessLibDir fs cuda_home with
  | .error e => .error e
  | .ok cuda_lib_dir =>
    match cudnn_home with
    | some home =>
      match guessLibDir fs home with
      | .error e => .error e
      | .ok d => .ok ([cuda_lib_dir] ++ [d])
    | none => .ok ([cuda_lib_dir] ++ [])

/-- The `extra_dirs` computation of `Library::link_paths` (the GPU-specific
link directories per `Api` variant). -/
def extraLinkDirs (fs : List Path) : Api → Except LibErr (List Path)
  | .hip a => pure [a.rocm_home ++ ["lib"]]
  | .cuda a => cudaLinkDirs fs a.cuda_home a.cudnn_home
  | .cudaSplit a => cudaLinkDirs fs a.cuda_home a.cudnn_home
  | .none => throw .gpuUnavailable

/-- `Library::link_paths` of `src/library.rs` (Linux branch). -/
def Library.link_paths (self : Library) (fs : List Path) (use_cuda_api : Option Bool) :
    Except LibErr (List Path) :=
  let use := use_cuda_api.getD self.is_cuda_api_available
  let extra := if use then extraLinkDirs fs self.api else pure []
  extra.map fun dirs => [self.lib_dir] ++ dirs

/-- Rust `str::contains` (substring containment). -/
def strContains (s sub : String) : Bool :=
  decide (List.IsInfix sub.toList s.toList)

/-- The `cuda_libraries` computation of `Library::libraries` (the
GPU-specific library names per `Api` variant; `base_cuda_libraries` is
`["cudart", "c10_cuda"]`). -/
def gpuLibraries : Api → Except LibErr (List String)
  | .none => throw LibErr.gpuUnavailable
  | .hip _ => pure ["amdhip64", "c10_hip", "torch_hip"]
  | .cuda _ => pure (["cudart", "c10_cuda"] ++ ["torch_cuda"])
  | .cudaSplit _ => pure (["cudart", "c10_cuda"] ++ ["torch_cuda_cu", "torch_cuda_cpp"])

/-- The trailing `gomp` entry of `Library::libraries`: appended unless the
target triple contains `msvc` or `apple` (absent `TARGET` appends
nothing). -/
def gompList : Option String → List String
  | some t => if !strContains t "msvc" && !strContains t "apple" then ["gomp"] else []
  | none => []

/-- `Library::libraries` of `src/library.rs`.  `target` is the `TARGET`
environment variable (used for the trailing `gomp` entry). -/
def Library.libraries (self : Library) (target : Option String)
    (use_cuda_api : Option Bool) (use_python : Bool) : Except LibErr (List String) :=
  let use := use_cuda_api.getD self.is_cuda_api_available
  let base_libraries := ["c10", "torch_cpu", "torch"]
  let python_library := if use_python then ["torch_python"] else []
  let cuda_libraries := if use then gpuLibraries self.api else pure []
  cuda_libraries.map fun cl => base_libraries ++ python_library ++ cl ++ gompList target

/-- Errors of `check_pytorch_version`. -/
inductive VersionErr where
  /-- the `bail!` mismatch message, carrying expected and stripped-reported. -/
  | versionMismatch (expected got : String)
  deriving DecidableEq, Repr

/-- Rust `str::split_once` on character lists. -/
def splitOnceChars (c : Char) : List Char → Option (List Char × List Char)
  | [] => none
  | x :: xs =>
    if x = c then some ([], xs)
    else (splitOnceChars c xs).map (fun p => (x :: p.1, p.2))

/-- Rust `str::trim`: drop leading and trailing whitespace (the claims only
exercise ASCII whitespace). -/
def trimChars (cs : List Char) : List Char :=
  ((cs.dropWhile Char.isWhitespace).reverse.dropWhile Char.isWhitespace).reverse

/-- The version-stripping of `check_pytorch_version`: trim whitespace, then
keep what precedes the first `+` (if any). -/
def stripVersion (version : String) : String :=
  let v := trimChars version.toList
  match splitOnceChars '+' v with
  | none => String.mk v
  | some (pre, _) => String.mk pre

/-- `check_pytorch_version` of `src/probe.rs`.  `bypass` is the
`LIBTORCH_BYPASS_VERSION_CHECK` flag, `torchVersion` the expected version. -/
def check_pytorch_version (bypass : Bool) (torchVersion : String) (version : String) :
    Except VersionErr Unit :=
  if bypass then .ok ()
  else
    let v := stripVersion version
    if v = torchVersion then .ok ()
    else .error (.versionMismatch torchVersion v)

/-- `struct CudaArch` of `src/cuda.rs` (`major`/`minor` are `u32`; the
derived `Ord` is lexicographic over `(major, minor, with_ptx)`). -/
structure CudaArch where
  major : Nat
  minor : Nat
  with_ptx : Bool
  deriving DecidableEq, Repr

/-- ASCII digit value of a character (`'0'` ↦ 0, ...). -/
def charToDigit (c : Char) : Nat := c.toNat - 48

/-- Character of a decimal digit (0 ↦ `'0'`, ...). -/
def digitToChar (d : Nat) : Char := Char.ofNat (48 + d)

/-- Numeric value of a big-endian list of decimal digit characters. -/
def digitsVal (cs : List Char) : Nat :=
  cs.foldl (fun a c => a * 10 + charToDigit c) 0

/-- Little-endian decimal digits of `n`, with fuel (structural recursion so
the kernel can evaluate it). -/
def decDigitsAux : Nat → Nat → List Nat
  | 0, _ => []
  | _, 0 => []
  | fuel + 1, n => n % 10 :: decDigitsAux fuel (n / 10)

/-- The canonical decimal rendering of `n` (what Rust `format!("{}")` prints
for an unsigned integer). -/
def decChars (n : Nat) : List Char :=
  if n = 0 then ['0'] else ((decDigitsAux n n).map digitToChar).reverse

/-- Canonical decimal string of a natural number. -/
def natStr (n : Nat) : String := String.mk (decChars n)

/-- `CudaArch::nvcc_flag` of `src/cuda.rs`. -/
def CudaArch.nvcc_flag (a : CudaArch) : String :=
  let number := natStr a.major ++ natStr a.minor
  let code_kind := if a.with_ptx then "compute" else "sm"
  "-gencode=arch=compute_" ++ number ++ ",code=" ++ code_kind ++ "_" ++ number

/-- Outcome of the arch parsers: `ok`, a Rust `Err` (`invalid CUDA arch`,
carrying the offending token), or a Rust panic (`parse::<u32>().unwrap()`
overflowing). -/
inductive ParseRes (α : Type) where
  | ok (a : α)
  | invalid (tok : String)
  | panicOverflow
  deriving DecidableEq, Repr

/-- Split a character list on a separator character, keeping empty chunks
(the semantics of Rust `str::split(c)`). -/
def splitChar (c : Char) : List Char → List (List Char)
  | [] => [[]]
  | x :: xs =>
    match splitChar c xs with
    | [] => [[x]]
    | y :: ys => if x = c then [] :: y :: ys else (x :: y) :: ys

/-- `CudaArch::from_str` of `src/cuda.rs`: match `^(\d+)\.(\d+)(\+PTX)?$`
and parse the two digit groups as `u32`.

The regex crate's `\d` is modelled as an ASCII digit: on a non-ASCII
Unicode digit the regex would match but `parse::<u32>()` would panic, a
corner none of the spec's claims reaches.  An in-range overflow
(`major`/`minor` ≥ 2^32) is the `unwrap` panic, modelled as
`panicOverflow`. -/
def CudaArch.from_str (s : String) : ParseRes CudaArch :=
  let cs := s.toList
  let suffix : List Char := ['+', 'P', 'T', 'X']
  let withPtx := decide (List.IsSuffix suffix cs)
  let body := if withPtx then cs.take (cs.length - 4) else cs
  match splitChar '.' body with
  | [majCs, minCs] =>
    if majCs ≠ [] ∧ minCs ≠ [] ∧ (∀ c ∈ majCs, c.isDigit) ∧ (∀ c ∈ minCs, c.isDigit) then
      if digitsVal majCs < 2 ^ 32 ∧ digitsVal minCs < 2 ^ 32 then
        .ok { major := digitsVal majCs, minor := digitsVal minCs, with_ptx := withPtx }
      else .panicOverflow
    else .invalid s
  | _ => .invalid s

/-- The bundled `CUDA_ARCH_ALIASES` table.  Its concrete contents are a
data file outside the sources, so it stays an explicit parameter: an
association list from alias name to expansion. -/
abbrev AliasTable := List (String × List CudaArch)

/-- `CUDA_ARCH_ALIASES.get(token)` (first matching entry). -/
def lookupAlias (aliases : AliasTable) (tok : String) : Option (List CudaArch) :=
  (aliases.find? fun p => p.1 == tok).map (·.2)

/-- The per-token loop of `CudaArch::parse_list` followed by `try_collect`:
expand aliases, parse literals, stop at the first error (or panic). -/
def parseTokens (aliases : AliasTable) : List String → ParseRes (List CudaArch)
  | [] => .ok []
  | t :: ts =>
    match lookupAlias aliases t with
    | some l =>
      match parseTokens aliases ts with
      | .ok rest => .ok (l ++ rest)
      | .invalid tok => .invalid tok
      | .panicOverflow => .panicOverflow
    | none =>
      match CudaArch.from_str t with
      | .ok a =>
        match parseTokens aliases ts with
        | .ok rest => .ok (a :: rest)
        | .invalid tok => .invalid tok
        | .panicOverflow => .panicOverflow
      | .invalid tok => .invalid tok
      | .panicOverflow => .panicOverflow

/-- `CudaArch::parse_list` of `src/cuda.rs`: split on `;` and process each
token. -/
def CudaArch.parse_list (aliases : AliasTable) (text : String) : ParseRes (List CudaArch) :=
  parseTokens aliases ((splitChar ';' text.toList).map String.mk)

/-- Join character lists with a separator character. -/
def joinChar (c : Char) : List (List Char) → List Char
  | [] => []
  | [x] => x
  | x :: y :: ys => x ++ c :: joinChar c (y :: ys)

/-- Join strings with `;` separators (how a `;`-separated list is formed). -/
def joinSemis (parts : List String) : String :=
  String.mk (joinChar ';' (parts.map String.toList))

/-- The `(major, minor)` compute-capability pair of an architecture. -/
def archKey (a : CudaArch) : Nat × Nat := (a.major, a.minor)

/-- Lexicographic `≤` on `(major, minor)` pairs (Rust's derived tuple `Ord`). -/
def pairLe (p q : Nat × Nat) : Prop :=
  p.1 < q.1 ∨ (p.1 = q.1 ∧ p.2 ≤ q.2)

/-- Lexicographic `<` on `(major, minor)` pairs. -/
def pairLt (p q : Nat × Nat) : Prop :=
  p.1 < q.1 ∨ (p.1 = q.1 ∧ p.2 < q.2)

instance : DecidableRel pairLe := fun p q => by unfold pairLe; infer_instance

instance : DecidableRel pairLt := fun p q => by unfold pairLt; infer_instance

/-- Rust `cmp::min` on `(u32, u32)` tuples: the second argument when it is
strictly smaller, else the first. -/
def pairMin (p q : Nat × Nat) : Nat × Nat :=
  if pairLt q p then q else p

/-- `with_ptx` as 0/1, so the derived `Ord`'s `false < true` ordering of the
third field is arithmetic. -/
def ptxN (a : CudaArch) : Nat := if a.with_ptx then 1 else 0

/-- The derived `Ord` of `CudaArch`: lexicographic on
`(major, minor, with_ptx)`. -/
def archLe (a b : CudaArch) : Prop :=
  a.major < b.major ∨
    (a.major = b.major ∧ (a.minor < b.minor ∨ (a.minor = b.minor ∧ ptxN a ≤ ptxN b)))

instance : DecidableRel archLe := fun a b => by unfold archLe; infer_instance

instance : IsTotal CudaArch archLe :=
  ⟨fun a b => by unfold archLe; omega⟩

instance : IsTrans CudaArch archLe :=
  ⟨fun a b c hab hbc => by unfold archLe at *; omega⟩

/-- Rust `Iterator::max` over the configured arch list (`None` on an empty
iterator; ties keep the later element). -/
def listMaxArch : List CudaArch → Option CudaArch
  | [] => none
  | x :: xs => some (xs.foldl (fun m y => if decide (archLe m y) then y else m) x)

/-- Outcome of `cuda_arches`: success, a propagated device-API/driver error
(message), or a Rust panic (`unwrap` on `None`). -/
inductive CudaOutcome (α : Type) where
  | ok (a : α)
  | err (msg : String)
  | panic
  deriving DecidableEq, Repr

/-- `IndexSet` insertion: append if not already present (insertion order is
preserved, duplicates dropped). -/
def insertUniq (acc : List (Nat × Nat)) (x : Nat × Nat) : List (Nat × Nat) :=
  if x ∈ acc then acc else acc ++ [x]

/-- The device-enumeration loop of `cuda_arches` up to `try_collect`:
read each device's compute capability (an `Except` covering the three `?`
operators), clamp it with `cmp::min` against the lazily-forced
`MAX_CUDA_ARCH` (which panics via `unwrap` when the configured arch list is
empty), and stop at the first error. -/
def collectDevices (archList : List CudaArch) :
    List (Except String (Nat × Nat)) → CudaOutcome (List (Nat × Nat))
  | [] => .ok []
  | d :: ds =>
    match d with
    | .error e => .err e
    | .ok v =>
      match listMaxArch archList with
      | none => .panic
      | some m =>
        match collectDevices archList ds with
        | .ok rest => .ok (pairMin v (m.major, m.minor) :: rest)
        | .err e => .err e
        | .panic => .panic

/-- `host_arches.last_mut().unwrap().with_ptx = true`: set `with_ptx` on the
last element, panicking (`none`) on an empty list. -/
def setLastPtx : List CudaArch → Option (List CudaArch)
  | [] => none
  | [a] => some [{ a with with_ptx := true }]
  | a :: b :: rest => (setLastPtx (b :: rest)).map (fun l => a :: l)

/-- `cuda_arches` of `src/cuda.rs`.  `archList` is the configured
`TORCH_CUDA_ARCH_LIST`; `initRes` the result of `rustacuda::init`;
`devices` the enumerated per-device compute-capability reads. -/
def cuda_arches (archList : List CudaArch) (initRes : Except String Unit)
    (devices : List (Except String (Nat × Nat))) : CudaOutcome (List CudaArch) :=
  match initRes with
  | .error e => .err e
  | .ok () =>
    match collectDevices archList devices with
    | .err e => .err e
    | .panic => .panic
    | .ok pairs =>
      let host := pairs.foldl insertUniq []
      let arches := host.map (fun p => CudaArch.mk p.1 p.2 false)
      let sorted := List.insertionSort archLe arches
      match setLastPtx sorted with
      | none => .panic
      | some l => .ok l

/-! ## Theorems for the claims -/

/-- C1: `find_or_download_libtorch_dir` consults the sources in the fixed
order `LIBTORCH` override, Linux system install (`/usr/lib/libtorch.so`
giving prefix `/usr`), the PyTorch probe when `LIBTORCH_USE_PYTORCH` is
set, then download when the feature is enabled; the first source that
succeeds is returned without consulting later sources, and the `NotFound`
error occurs exactly when every source is exhausted. -/
theorem find_or_download_resolution_order (c : EnvConfig) (fs : List Path)
    (pp : Except PyProbeErr ProbePyTorch) (dl : Except DownloadErr Path) :
    (∀ dir, c.libtorch = some dir →
      find_or_download_libtorch_dir c fs pp dl = .ok (.manual dir)) ∧
    (c.libtorch = none → pexists fs usrLibtorchSo = true →
      find_or_download_libtorch_dir c fs pp dl = .ok (.system ["usr"])) ∧
    (c.libtorch = none → pexists fs usrLibtorchSo = false → c.libtorchUsePytorch = true →
      find_or_download_libtorch_dir c fs pp dl =
        match pp with
        | .ok p => .ok (.pytorch p)
        | .error e => .error (.probeScript e)) ∧
    (c.libtorch = none → pexists fs usrLibtorchSo = false → c.libtorchUsePytorch = false →
      c.downloadFeature = true →
      find_or_download_libtorch_dir c fs pp dl =
        match dl with
        | .ok dir => .ok (.download dir)
        | .error e => .error (.downloadFailed e)) ∧
    (find_or_download_libtorch_dir c fs pp dl = .error .notFound ↔
      c.libtorch = none ∧ pexists fs usrLibtorchSo = false ∧
        c.libtorchUsePytorch = false ∧ c.downloadFeature = false) := by
  refine ⟨?_, ?_, ?_, ?_, ?_, ?_⟩
  · intro dir h
    simp [find_or_download_libtorch_dir, h]
  · intro h1 h2
    simp [find_or_download_libtorch_dir, h1, h2]
  · intro h1 h2 h3
    simp [find_or_download_libtorch_dir, h1, h2, h3]
  · intro h1 h2 h3 h4
    simp [find_or_download_libtorch_dir, h1, h2, h3, h4]
  · intro h
    cases hl : c.libtorch with
    | some d => simp [find_or_download_libtorch_dir, hl] at h
    | none =>
      cases hp : pexists fs usrLibtorchSo with
      | true => simp [find_or_download_libtorch_dir, hl, hp] at h
      | false =>
        cases hu : c.libtorchUsePytorch with
        | true => cases pp <;> simp [find_or_download_libtorch_dir, hl, hp, hu] at h
        | false =>
          cases hd : c.downloadFeature with
          | true => cases dl <;> simp [find_or_download_libtorch_dir, hl, hp, hu, hd] at h
          | false => exact ⟨rfl, rfl, rfl, rfl⟩
  · rintro ⟨h1, h2, h3, h4⟩
    simp [find_or_download_libtorch_dir, h1, h2, h3, h4]

/-- C1 witness: with `LIBTORCH` set, the override is returned verbatim. -/
theorem find_or_download_resolution_order_witness :
    find_or_download_libtorch_dir
        { libtorch := some ["opt", "libtorch"], libtorchUsePytorch := false,
          downloadFeature := false, rocmHome := none, cudaHome := none, cudnnHome := none }
        [] (.error "e") (.error "e")
      = .ok (.manual ["opt", "libtorch"]) :=
  (find_or_download_resolution_order _ _ _ _).1 _ rfl

/-- C2: `probe_cuda_api` returns `Hip` exactly when a ROCm home is
configured and `libtorch_hip.so` exists; otherwise with a CUDA home it
returns `CudaSplit` exactly when both split artifacts exist, else `Cuda`
exactly when the monolithic artifact exists, else `Api::None` with the
non-fatal warning; with no toolkit configured `Api::None` without warning.
A variant other than `None` is returned only when its artifact is
present. -/
theorem probe_cuda_api_spec (c : EnvConfig) (fs : List Path) (lib_dir : Path) :
    (∀ r, c.rocmHome = some r → probe_library_file fs lib_dir "torch_hip" = true →
      probe_cuda_api c fs lib_dir
        = (.hip { rocm_home := r, miopen_home := r ++ ["miopen"] }, false)) ∧
    (∀ ch, (c.rocmHome = none ∨ probe_library_file fs lib_dir "torch_hip" = false) →
      c.cudaHome = some ch →
      (probe_library_file fs lib_dir "torch_cuda_cu" = true ∧
          probe_library_file fs lib_dir "torch_cuda_cpp" = true →
        probe_cuda_api c fs lib_dir
          = (.cudaSplit { cuda_home := ch, cudnn_home := c.cudnnHome }, false)) ∧
      (¬(probe_library_file fs lib_dir "torch_cuda_cu" = true ∧
          probe_library_file fs lib_dir "torch_cuda_cpp" = true) →
        probe_library_file fs lib_dir "torch_cuda" = true →
        probe_cuda_api c fs lib_dir
          = (.cuda { cuda_home := ch, cudnn_home := c.cudnnHome }, false)) ∧
      (¬(probe_library_file fs lib_dir "torch_cuda_cu" = true ∧
          probe_library_file fs lib_dir "torch_cuda_cpp" = true) →
        probe_library_file fs lib_dir "torch_cuda" = false →
        probe_cuda_api c fs lib_dir = (.none, true))) ∧
    ((c.rocmHome = none ∨ probe_library_file fs lib_dir "torch_hip" = false) →
      c.cudaHome = none → probe_cuda_api c fs lib_dir = (.none, false)) ∧
    (∀ a, (probe_cuda_api c fs lib_dir).1 = .hip a →
      c.rocmHome = some a.rocm_home ∧ probe_library_file fs lib_dir "torch_hip" = true) ∧
    (∀ a, (probe_cuda_api c fs lib_dir).1 = .cudaSplit a →
      c.cudaHome = some a.cuda_home ∧ probe_library_file fs lib_dir "torch_cuda_cu" = true ∧
        probe_library_file fs lib_dir "torch_cuda_cpp" = true) ∧
    (∀ a, (probe_cuda_api c fs lib_dir).1 = .cuda a →
      c.cudaHome = some a.cuda_home ∧
        probe_library_file fs lib_dir "torch_cuda" = true) := by
  refine ⟨?_, ?_, ?_, ?_, ?_, ?_⟩
  · intro r h1 h2
    simp [probe_cuda_api, h1, h2]
  · intro ch hdisj hch
    refine ⟨?_, ?_, ?_⟩
    · rintro ⟨hcu, hcpp⟩
      rcases hdisj with h | h <;> simp [probe_cuda_api, h, hch, hcu, hcpp]
    · intro hns hmono
      cases hcu : probe_library_file fs lib_dir "torch_cuda_cu" <;>
        cases hcpp : probe_library_file fs lib_dir "torch_cuda_cpp"
      case true.true => exact absurd ⟨hcu, hcpp⟩ hns
      all_goals rcases hdisj with h | h <;>
        simp [probe_cuda_api, h, hch, hcu, hcpp, hmono]
    · intro hns hmono
      cases hcu : probe_library_file fs lib_dir "torch_cuda_cu" <;>
        cases hcpp : probe_library_file fs lib_dir "torch_cuda_cpp"
      case true.true => exact absurd ⟨hcu, hcpp⟩ hns
      all_goals rcases hdisj with h | h <;>
        simp [probe_cuda_api, h, hch, hcu, hcpp, hmono]
  · intro hdisj hch
    rcases hdisj with h | h <;> simp [probe_cuda_api, h, hch]
  all_goals
    intro a h
    cases hr : c.rocmHome with
    | some r =>
      cases hhip : probe_library_file fs lib_dir "torch_hip" with
      | true =>
        simp_all [probe_cuda_api, hr, hhip]
        all_goals subst h; rfl
      | false =>
        cases hc : c.cudaHome with
        | some ch =>
          cases hcu : probe_library_file fs lib_dir "torch_cuda_cu" <;>
            cases hcpp : probe_library_file fs lib_dir "torch_cuda_cpp" <;>
            cases hmono : probe_library_file fs lib_dir "torch_cuda" <;>
            simp_all [probe_cuda_api, hr, hhip, hc, hcu, hcpp, hmono] <;>
            (subst h; rfl)
        | none => simp_all [probe_cuda_api, hr, hhip, hc]
    | none =>
      cases hc : c.cudaHome with
      | some ch =>
        cases hcu : probe_library_file fs lib_dir "torch_cuda_cu" <;>
          cases hcpp : probe_library_file fs lib_dir "torch_cuda_cpp" <;>
          cases hmono : probe_library_file fs lib_dir "torch_cuda" <;>
          simp_all [probe_cuda_api, hr, hc, hcu, hcpp, hmono] <;>
          (subst h; rfl)
      | none => simp_all [probe_cuda_api, hr, hc]

/-- C2 witness: ROCm configured with the HIP artifact present yields `Hip`. -/
theorem probe_cuda_api_spec_witness :
    probe_cuda_api
        { libtorch := none, libtorchUsePytorch := false, downloadFeature := false,
          rocmHome := some ["opt", "rocm"], cudaHome := some ["usr", "local", "cuda"],
          cudnnHome := none }
        [["t", "lib", "libtorch_hip.so"]] ["t", "lib"]
      = (.hip { rocm_home := ["opt", "rocm"],
                miopen_home := ["opt", "rocm", "miopen"] }, false) :=
  (probe_cuda_api_spec _ _ _).1 _ rfl (by decide)

/-- C6: `check_pytorch_version` with the bypass flag set succeeds on every
input; without it, the reported version is trimmed and stripped of any
`+suffix` and compared with the expected version, failing with
`VersionMismatch` on a difference; `"2.0.0+cu117"` passes against
`"2.0.0"` while `"2.1.0+cpu"` fails. -/
theorem check_version_gate :
    (∀ version expected, check_pytorch_version true expected version = .ok ()) ∧
    (∀ version expected, check_pytorch_version false expected version =
      if stripVersion version = expected then .ok ()
      else .error (.versionMismatch expected (stripVersion version))) ∧
    check_pytorch_version false "2.0.0" "2.0.0+cu117" = .ok () ∧
    check_pytorch_version false "2.0.0" "2.1.0+cpu"
      = .error (.versionMismatch "2.0.0" "2.1.0") := by
  refine ⟨fun v e => rfl, fun v e => ?_, by decide, by decide⟩
  simp only [check_pytorch_version, if_false, Bool.false_eq_true]

/-- Inversion for `Except.map` yielding `ok`. -/
theorem except_map_ok {α β γ : Type} (e : Except γ α) (f : α → β) (l : β)
    (h : e.map f = .ok l) : ∃ x, e = .ok x ∧ l = f x := by
  cases e with
  | error g => simp [Except.map] at h
  | ok x =>
    refine ⟨x, rfl, ?_⟩
    simpa [Except.map, eq_comm] using h

/-- C10: on Linux, `Library::include_paths` never yields the exact path
`/usr/include`, for every library and every tri-state request. -/
theorem include_paths_no_usr_include (lib : Library) (u : Option Bool) (l : List Path)
    (h : lib.include_paths u = .ok l) : usrInclude ∉ l := by
  simp only [Library.include_paths] at h
  obtain ⟨extra, -, hl⟩ := except_map_ok _ _ _ h
  subst hl
  intro hmem
  have h2 := (List.mem_filter.mp hmem).2
  simp at h2

/-- C10 witness: a library whose `include_dirs` contain `/usr/include`
still never emits it. -/
theorem include_paths_no_usr_include_witness :
    ({ include_dirs := [["usr", "include"]], lib_dir := ["usr", "lib"],
       api := .none, use_cxx11_abi := true } : Library).include_paths (some false)
      = .ok [] ∧
    usrInclude ∉ ([] : List Path) :=
  ⟨by decide, include_paths_no_usr_include
    { include_dirs := [["usr", "include"]], lib_dir := ["usr", "lib"],
      api := .none, use_cxx11_abi := true }
    (some false) [] (by decide)⟩

/-- The only error `guessLibDir` produces is the `bail!("TODO")` one. -/
theorem guessLibDir_error (fs : List Path) (home : Path) (e : LibErr)
    (h : guessLibDir fs home = .error e) : e = .todo := by
  unfold guessLibDir at h
  split at h
  · exact absurd h (by simp)
  · split at h
    · exact absurd h (by simp)
    · simpa [eq_comm] using h

/-- The only error `cudaLinkDirs` produces is the `bail!("TODO")` one. -/
theorem cudaLinkDirs_error (fs : List Path) (ch : Path) (cdh : Option Path) (e : LibErr)
    (h : cudaLinkDirs fs ch cdh = .error e) : e = .todo := by
  unfold cudaLinkDirs at h
  cases hg : guessLibDir fs ch with
  | error e1 =>
    rw [hg] at h
    cases h
    exact guessLibDir_error fs ch e hg
  | ok d =>
    rw [hg] at h
    dsimp only at h
    cases cdh with
    | none => exact absurd h (by simp)
    | some home =>
      dsimp only at h
      cases hg2 : guessLibDir fs home with
      | error e2 =>
        rw [hg2] at h
        cases h
        exact guessLibDir_error fs home e hg2
      | ok d2 => rw [hg2] at h; exact absurd h (by simp)

/-- C7: with `use_cuda_api = true` the three accessors fail with
`GpuUnavailable` exactly when the detected `Api` is `None`; with `false`
they succeed with no GPU-specific entries regardless of the variant; with
the argument unset they behave as if the current detected availability had
been passed, so the unset case never fails on account of `Api::None`. -/
theorem tri_state_gpu_request (lib : Library) (fs : List Path) (tgt : Option String)
    (upy : Bool) :
    ((lib.include_paths (some true) = .error .gpuUnavailable) ↔ lib.api = .none) ∧
    ((lib.link_paths fs (some true) = .error .gpuUnavailable) ↔ lib.api = .none) ∧
    ((lib.libraries tgt (some true) upy = .error .gpuUnavailable) ↔ lib.api = .none) ∧
    (lib.include_paths (some false)
      = .ok (lib.include_dirs.filter fun p => decide (p ≠ usrInclude))) ∧
    (lib.link_paths fs (some false) = .ok [lib.lib_dir]) ∧
    (lib.libraries tgt (some false) upy
      = .ok (["c10", "torch_cpu", "torch"]
          ++ (if upy then ["torch_python"] else []) ++ gompList tgt)) ∧
    (lib.include_paths none = lib.include_paths (some lib.is_cuda_api_available)) ∧
    (lib.link_paths fs none = lib.link_paths fs (some lib.is_cuda_api_available)) ∧
    (lib.libraries tgt none upy = lib.libraries tgt (some lib.is_cuda_api_available) upy) ∧
    (lib.api = .none →
      lib.include_paths none
          = .ok (lib.include_dirs.filter fun p => decide (p ≠ usrInclude)) ∧
        lib.link_paths fs none = .ok [lib.lib_dir] ∧
        lib.libraries tgt none upy
          = .ok (["c10", "torch_cpu", "torch"]
              ++ (if upy then ["torch_python"] else []) ++ gompList tgt)) := by
  refine ⟨⟨?_, ?_⟩, ⟨?_, ?_⟩, ⟨?_, ?_⟩, ?_, ?_, ?_, ?_, ?_, ?_, ?_⟩
  · intro h
    cases ha : lib.api <;>
      simp_all [Library.include_paths, extraIncludeDirs, Except.map, pure, Except.pure]
  · intro h
    simp [Library.include_paths, h, extraIncludeDirs, Except.map]
  · intro h
    cases ha : lib.api with
    | none => rfl
    | hip a => simp_all [Library.link_paths, extraLinkDirs, Except.map, pure, Except.pure]
    | cuda a =>
      simp only [Library.link_paths, ha, extraLinkDirs, Option.getD_some, if_true] at h
      cases hc : cudaLinkDirs fs a.cuda_home a.cudnn_home with
      | error e =>
        rw [hc] at h
        simp only [Except.map, Except.error.injEq] at h
        have := cudaLinkDirs_error fs a.cuda_home a.cudnn_home e hc
        subst h; cases this
      | ok dirs => rw [hc] at h; exact absurd h (by simp [Except.map])
    | cudaSplit a =>
      simp only [Library.link_paths, ha, extraLinkDirs, Option.getD_some, if_true] at h
      cases hc : cudaLinkDirs fs a.cuda_home a.cudnn_home with
      | error e =>
        rw [hc] at h
        simp only [Except.map, Except.error.injEq] at h
        have := cudaLinkDirs_error fs a.cuda_home a.cudnn_home e hc
        subst h; cases this
      | ok dirs => rw [hc] at h; exact absurd h (by simp [Except.map])
  · intro h
    simp [Library.link_paths, h, extraLinkDirs, Except.map]
  · intro h
    cases ha : lib.api <;>
      simp_all [Library.libraries, gpuLibraries, Except.map, pure, Except.pure]
  · intro h
    simp [Library.libraries, h, gpuLibraries, Except.map]
  · simp [Library.include_paths, Except.map, pure, Except.pure]
  · simp [Library.link_paths, Except.map, pure, Except.pure]
  · simp [Library.libraries, Except.map, pure, Except.pure]
  · rfl
  · rfl
  · rfl
  · intro h
    refine ⟨?_, ?_, ?_⟩ <;>
      simp [Library.include_paths, Library.link_paths, Library.libraries,
        Library.is_cuda_api_available, h, Api.is_cuda_api_available, Except.map,
        pure, Except.pure]

/-- C7 witness: a CPU-only library (`Api::None`): mandatory GPU request
fails with `GpuUnavailable`, disabled and unset requests succeed. -/
theorem tri_state_gpu_request_witness :
    (({ include_dirs := [["i"]], lib_dir := ["l"], api := .none,
        use_cxx11_abi := true } : Library).include_paths (some true)
      = .error .gpuUnavailable) ∧
    (({ include_dirs := [["i"]], lib_dir := ["l"], api := .none,
        use_cxx11_abi := true } : Library).include_paths none = .ok [["i"]]) :=
  ⟨(tri_state_gpu_request
      { include_dirs := [["i"]], lib_dir := ["l"], api := .none, use_cxx11_abi := true }
      [] none false).1.mpr rfl,
   by
    have h := ((tri_state_gpu_request
      { include_dirs := [["i"]], lib_dir := ["l"], api := .none, use_cxx11_abi := true }
      [] none false).2.2.2.2.2.2.2.2.2 rfl).1
    simpa using h⟩

/-- C5 counterexample: in the claim's scenario (override directory with
`lib/libtorch_cuda.so` and `lib/libtorch_cpu.so`, CUDA home configured, no
ROCm home) the resolved library's `libraries(true, false)` yields six
names — `c10_cuda` is emitted between `cudart` and `torch_cuda` — not the
claimed five. -/
theorem end_to_end_libraries_counterexample :
    probe_libtorch_private
        { libtorch := some ["opt", "libtorch"], libtorchUsePytorch := false,
          downloadFeature := false, rocmHome := none,
          cudaHome := some ["usr", "local", "cuda"], cudnnHome := none }
        [["opt", "libtorch", "lib", "libtorch_cuda.so"],
         ["opt", "libtorch", "lib", "libtorch_cpu.so"],
         ["usr", "local", "cuda", "lib64"]]
        (some true) ["out"] (.error "e") (.error "e")
      = .ok { include_dirs := [["opt", "libtorch", "include"],
                ["opt", "libtorch", "include", "torch", "csrc", "api", "include"],
                ["opt", "libtorch", "include", "TH"], ["opt", "libtorch", "include", "THC"]],
              lib_dir := ["opt", "libtorch", "lib"],
              api := .cuda { cuda_home := ["usr", "local", "cuda"], cudnn_home := none },
              use_cxx11_abi := true } ∧
    ({ include_dirs := [["opt", "libtorch", "include"],
         ["opt", "libtorch", "include", "torch", "csrc", "api", "include"],
         ["opt", "libtorch", "include", "TH"], ["opt", "libtorch", "include", "THC"]],
       lib_dir := ["opt", "libtorch", "lib"],
       api := .cuda { cuda_home := ["usr", "local", "cuda"], cudnn_home := none },
       use_cxx11_abi := true } : Library).libraries none (some true) false
      = .ok ["c10", "torch_cpu", "torch", "cudart", "c10_cuda", "torch_cuda"] ∧
    (Except.ok ["c10", "torch_cpu", "torch", "cudart", "c10_cuda", "torch_cuda"]
        : Except LibErr (List String))
      ≠ .ok ["c10", "torch_cpu", "torch", "cudart", "torch_cuda"] :=
  ⟨by decide, by decide, by decide⟩

/-- C5 (amended): in the scenario, resolution yields `Api::Cuda`;
`link_paths(true)` includes the override's `lib` subdirectory and the CUDA
home's `lib64` (or `lib`, whichever exists); and `libraries(true, false)`
yields `c10, torch_cpu, torch, cudart, c10_cuda, torch_cuda` in order —
six names including `c10_cuda` — plus `gomp` appended on targets that are
neither msvc nor apple, with no python-binding and no split-module
names. -/
theorem end_to_end_cuda_amended (c : EnvConfig) (fs : List Path) (L H : Path)
    (tgt : Option String) (cxo : Option Bool) (od : Path)
    (pp : Except PyProbeErr ProbePyTorch) (dl : Except DownloadErr Path)
    (hL : c.libtorch = some L)
    (hrocm : c.rocmHome = none)
    (hcuda : c.cudaHome = some H)
    (hcudnn : c.cudnnHome = none)
    (hmono : probe_library_file fs (L ++ ["lib"]) "torch_cuda" = true)
    (hsplit : ¬(probe_library_file fs (L ++ ["lib"]) "torch_cuda_cu" = true ∧
        probe_library_file fs (L ++ ["lib"]) "torch_cuda_cpp" = true))
    (hdir : pexists fs (H ++ ["lib64"]) = true ∨ pexists fs (H ++ ["lib"]) = true) :
    ∃ lib : Library,
      probe_libtorch_private c fs cxo od pp dl = .ok lib ∧
      lib.api = .cuda { cuda_home := H, cudnn_home := none } ∧
      (∃ dirs, lib.link_paths fs (some true) = .ok dirs ∧
        L ++ ["lib"] ∈ dirs ∧
        (if pexists fs (H ++ ["lib64"]) then H ++ ["lib64"] else H ++ ["lib"]) ∈ dirs) ∧
      lib.libraries tgt (some true) false
        = .ok (["c10", "torch_cpu", "torch", "cudart", "c10_cuda", "torch_cuda"]
            ++ gompList tgt) := by
  have hapi : probe_cuda_api c fs (L ++ ["lib"])
      = (.cuda { cuda_home := H, cudnn_home := none }, false) := by
    cases hcu : probe_library_file fs (L ++ ["lib"]) "torch_cuda_cu" <;>
      cases hcpp : probe_library_file fs (L ++ ["lib"]) "torch_cuda_cpp"
    case true.true => exact absurd ⟨hcu, hcpp⟩ hsplit
    all_goals
      cases hhip : probe_library_file fs (L ++ ["lib"]) "torch_hip" <;>
        simp [probe_cuda_api, hrocm, hcuda, hcudnn, hcu, hcpp, hmono, hhip]
  have hfind : find_or_download_libtorch_dir c fs pp dl = .ok (.manual L) := by
    simp [find_or_download_libtorch_dir, hL]
  have hguess : guessLibDir fs H
      = .ok (if pexists fs (H ++ ["lib64"]) then H ++ ["lib64"] else H ++ ["lib"]) := by
    cases hb : pexists fs (H ++ ["lib64"]) with
    | true => simp [guessLibDir, hb]
    | false =>
      rcases hdir with hd | hd
      · rw [hb] at hd; cases hd
      · simp [guessLibDir, hb, hd]
  refine ⟨{ include_dirs := [L ++ ["include"],
              (L ++ ["include"]) ++ ["torch", "csrc", "api", "include"],
              (L ++ ["include"]) ++ ["TH"], (L ++ ["include"]) ++ ["THC"]],
            lib_dir := L ++ ["lib"],
            api := .cuda { cuda_home := H, cudnn_home := none },
            use_cxx11_abi := probe_cxx11_abi cxo fs od }, ?_, rfl, ?_, ?_⟩
  · simp [probe_libtorch_private, hfind, hapi, Api.is_hip]
  · refine ⟨[L ++ ["lib"],
      if pexists fs (H ++ ["lib64"]) then H ++ ["lib64"] else H ++ ["lib"]], ?_, ?_, ?_⟩
    · simp [Library.link_paths, extraLinkDirs, cudaLinkDirs, hguess, Except.map]
    · simp
    · simp
  · simp [Library.libraries, gpuLibraries, Except.map, gompList, pure, Except.pure]

/-- C5 witness: the amended scenario evaluated at a concrete environment. -/
theorem end_to_end_cuda_amended_witness :
    ∃ lib : Library,
      probe_libtorch_private
          { libtorch := some ["opt", "libtorch"], libtorchUsePytorch := false,
            downloadFeature := false, rocmHome := none,
            cudaHome := some ["usr", "local", "cuda"], cudnnHome := none }
          [["opt", "libtorch", "lib", "libtorch_cuda.so"],
           ["opt", "libtorch", "lib", "libtorch_cpu.so"],
           ["usr", "local", "cuda", "lib64"]]
          (some true) ["out"] (.error "e") (.error "e")
        = .ok lib ∧
      lib.api = .cuda { cuda_home := ["usr", "local", "cuda"], cudnn_home := none } ∧
      (∃ dirs, lib.link_paths
          [["opt", "libtorch", "lib", "libtorch_cuda.so"],
           ["opt", "libtorch", "lib", "libtorch_cpu.so"],
           ["usr", "local", "cuda", "lib64"]] (some true) = .ok dirs ∧
        ["opt", "libtorch"] ++ ["lib"] ∈ dirs ∧
        (if pexists
            [["opt", "libtorch", "lib", "libtorch_cuda.so"],
             ["opt", "libtorch", "lib", "libtorch_cpu.so"],
             ["usr", "local", "cuda", "lib64"]] (["usr", "local", "cuda"] ++ ["lib64"]) then
          ["usr", "local", "cuda"] ++ ["lib64"] else ["usr", "local", "cuda"] ++ ["lib"]) ∈ dirs) ∧
      lib.libraries none (some true) false
        = .ok (["c10", "torch_cpu", "torch", "cudart", "c10_cuda", "torch_cuda"]
            ++ gompList none) :=
  end_to_end_cuda_amended _ _ ["opt", "libtorch"] ["usr", "local", "cuda"] none (some true)
    ["out"] (.error "e") (.error "e") rfl rfl rfl rfl (by decide) (by decide)
    (Or.inl (by decide))

theorem pairLe_refl (p : Nat × Nat) : pairLe p p := by
  unfold pairLe; omega

/-- The clamp `cmp::min(version, MAX)` never exceeds the ceiling. -/
theorem pairMin_le (v mp : Nat × Nat) : pairLe (pairMin v mp) mp := by
  unfold pairMin
  split
  · exact pairLe_refl mp
  · unfold pairLt at *; unfold pairLe; omega

/-- Successful enumeration: `collectDevices` on all-`ok` reads clamps each
device pair against the configured maximum. -/
theorem collect_ok (archList : List CudaArch) (m : CudaArch)
    (hm : listMaxArch archList = some m) :
    ∀ devs : List (Nat × Nat),
      collectDevices archList (devs.map .ok)
        = .ok (devs.map fun v => pairMin v (m.major, m.minor))
  | [] => rfl
  | v :: ds => by
    simp only [List.map_cons, collectDevices, hm, collect_ok archList m hm ds]

theorem mem_insertUniq_fold :
    ∀ (xs acc : List (Nat × Nat)) (y : Nat × Nat),
      y ∈ xs.foldl insertUniq acc ↔ y ∈ acc ∨ y ∈ xs
  | [], acc, y => by simp
  | x :: xs, acc, y => by
    rw [List.foldl_cons, mem_insertUniq_fold xs (insertUniq acc x) y]
    unfold insertUniq
    split
    · next hx =>
      simp only [List.mem_cons]
      constructor
      · rintro (h | h)
        · exact Or.inl h
        · exact Or.inr (Or.inr h)
      · rintro (h | h | h)
        · exact Or.inl h
        · subst h; exact Or.inl hx
        · exact Or.inr h
    · simp only [List.mem_append, List.mem_singleton, List.mem_cons]
      tauto

theorem nodup_insertUniq_fold :
    ∀ (xs acc : List (Nat × Nat)), acc.Nodup → (xs.foldl insertUniq acc).Nodup
  | [], _, h => h
  | x :: xs, acc, h => by
    rw [List.foldl_cons]
    refine nodup_insertUniq_fold xs _ ?_
    unfold insertUniq
    split
    · exact h
    · simp_all [List.nodup_append]

theorem pairwise_imp_of_mem {α : Type _} {R S : α → α → Prop} :
    ∀ (l : List α), (∀ a b, a ∈ l → b ∈ l → R a b → S a b) → l.Pairwise R → l.Pairwise S
  | [], _, _ => .nil
  | x :: xs, H, h => by
    rcases List.pairwise_cons.mp h with ⟨h1, h2⟩
    refine List.pairwise_cons.mpr
      ⟨fun b hb => H x b (by simp) (by simp [hb]) (h1 b hb), ?_⟩
    exact pairwise_imp_of_mem xs (fun a b ha hb => H a b (by simp [ha]) (by simp [hb])) h2

theorem pairwise_and {α : Type _} {R S : α → α → Prop} :
    ∀ (l : List α), l.Pairwise R → l.Pairwise S → l.Pairwise (fun a b => R a b ∧ S a b)
  | [], _, _ => .nil
  | x :: xs, hr, hs => by
    rcases List.pairwise_cons.mp hr with ⟨hr1, hr2⟩
    rcases List.pairwise_cons.mp hs with ⟨hs1, hs2⟩
    exact List.pairwise_cons.mpr
      ⟨fun b hb => ⟨hr1 b hb, hs1 b hb⟩, pairwise_and xs hr2 hs2⟩

theorem mem_of_getLast?_eq {α : Type _} :
    ∀ (l : List α) (a : α), l.getLast? = some a → a ∈ l
  | [], _, h => by cases h
  | [x], a, h => by simp_all
  | x :: y :: rest, a, h => by
    rw [List.getLast?_cons_cons] at h
    exact List.mem_cons_of_mem x (mem_of_getLast?_eq (y :: rest) a h)

/-- In a strictly ascending pair list, every element is `≤` the last one. -/
theorem key_last_ge :
    ∀ (ks : List (Nat × Nat)), List.Pairwise pairLt ks →
      ∀ lastk, ks.getLast? = some lastk → ∀ k ∈ ks, pairLe k lastk
  | [], _, _, h => by cases h
  | [x], _, lastk, h => by
    intro k hk
    simp only [List.getLast?_singleton, Option.some.injEq] at h
    simp only [List.mem_singleton] at hk
    subst h; subst hk; exact pairLe_refl k
  | x :: y :: rest, hp, lastk, h => by
    intro k hk
    rcases List.pairwise_cons.mp hp with ⟨h1, h2⟩
    rw [List.getLast?_cons_cons] at h
    rcases List.mem_cons.mp hk with rfl | hk2
    · have hmem : lastk ∈ y :: rest := mem_of_getLast?_eq (y :: rest) lastk h
      have := h1 lastk hmem
      unfold pairLt at this; unfold pairLe; omega
    · exact key_last_ge (y :: rest) h2 lastk h k hk2

theorem setLastPtx_some :
    ∀ (l : List CudaArch), l ≠ [] → ∃ out, setLastPtx l = some out
  | [], h => absurd rfl h
  | [_], _ => ⟨_, rfl⟩
  | a :: b :: rest, _ => by
    obtain ⟨out', h'⟩ := setLastPtx_some (b :: rest) (by simp)
    exact ⟨a :: out', by simp [setLastPtx, h']⟩

theorem getLast?_map_eq {α β : Type _} :
    ∀ (l : List α) (f : α → β) (a : α), l.getLast? = some a →
      (l.map f).getLast? = some (f a)
  | [], _, _, h => by cases h
  | [x], f, a, h => by simp_all
  | x :: y :: rest, f, a, h => by
    rw [List.getLast?_cons_cons] at h
    simp only [List.map_cons, List.getLast?_cons_cons]
    have := getLast?_map_eq (y :: rest) f a h
    simpa using this

/-- `setLastPtx` keeps all keys, marks the last element, and leaves every
other element's `with_ptx` as it was. -/
theorem setLastPtx_spec :
    ∀ (l out : List CudaArch), setLastPtx l = some out →
      out.map archKey = l.map archKey ∧
      ∃ last, out.getLast? = some last ∧ last.with_ptx = true ∧
        ((∀ a ∈ l, a.with_ptx = false) → ∀ a ∈ out, a = last ∨ a.with_ptx = false)
  | [], _, h => by cases h
  | [a], out, h => by
    simp only [setLastPtx, Option.some.injEq] at h
    subst h
    refine ⟨rfl, { a with with_ptx := true }, rfl, rfl, ?_⟩
    intro _ x hx
    simp only [List.mem_singleton] at hx
    exact Or.inl hx
  | a :: b :: rest, out, h => by
    simp only [setLastPtx] at h
    cases h' : setLastPtx (b :: rest) with
    | none => rw [h'] at h; cases h
    | some out' =>
      rw [h'] at h
      simp only [Option.map_some', Option.some.injEq] at h
      subst h
      obtain ⟨hkeys, last, hlast, hptx, hothers⟩ := setLastPtx_spec (b :: rest) out' h'
      refine ⟨by simp [hkeys], last, ?_, hptx, ?_⟩
      · have hne : out' ≠ [] := by intro he; rw [he] at hlast; cases hlast
        cases out' with
        | nil => exact absurd rfl hne
        | cons c cs => rw [List.getLast?_cons_cons]; exact hlast
      · intro hall x hx
        rcases List.mem_cons.mp hx with rfl | hx2
        · exact Or.inr (hall x (by simp))
        · exact hothers (fun y hy => hall y (List.mem_cons_of_mem a hy)) x hx2

/-- The dedup–sort–mark pipeline of `cuda_arches` after a successful
enumeration: the output is strictly ascending in `(major, minor)`, its
keys all come from the clamped input, and exactly the last (greatest)
element carries `with_ptx = true`. -/
theorem pipeline_spec (pairs : List (Nat × Nat)) (hpne : pairs ≠ []) :
    ∃ out, setLastPtx (List.insertionSort archLe
        ((pairs.foldl insertUniq []).map fun p => CudaArch.mk p.1 p.2 false)) = some out ∧
      List.Pairwise pairLt (out.map archKey) ∧
      (∀ a ∈ out, archKey a ∈ pairs) ∧
      (∃ last, out.getLast? = some last ∧ last.with_ptx = true ∧
        (∀ a ∈ out, a = last ∨ a.with_ptx = false) ∧
        (∀ a ∈ out, pairLe (archKey a) (archKey last))) := by
  set host := pairs.foldl insertUniq [] with hhost
  have hhostmem : ∀ y, y ∈ host ↔ y ∈ pairs := by
    intro y; rw [hhost, mem_insertUniq_fold]; simp
  have hhostnodup : host.Nodup := nodup_insertUniq_fold pairs [] List.nodup_nil
  have hhostne : host ≠ [] := by
    cases hp : pairs with
    | nil => exact absurd hp hpne
    | cons p ps =>
      exact List.ne_nil_of_mem ((hhostmem p).mpr (by simp [hp]))
  set arches := host.map (fun p => CudaArch.mk p.1 p.2 false) with harches
  have harchkeys : arches.map archKey = host := by
    rw [harches, List.map_map]
    have hid : (archKey ∘ fun p : Nat × Nat => CudaArch.mk p.1 p.2 false) = id := by
      funext p; cases p; rfl
    rw [hid, List.map_id]
  have harchptx : ∀ x ∈ arches, x.with_ptx = false := by
    intro x hx
    rw [harches] at hx
    rcases List.mem_map.mp hx with ⟨p, _, rfl⟩
    rfl
  have harchnodup : arches.Nodup := by
    rw [harches]
    refine List.Nodup.map ?_ hhostnodup
    intro p q hpq
    cases p; cases q
    simp only [CudaArch.mk.injEq] at hpq
    exact Prod.ext hpq.1 hpq.2.1
  set sorted := List.insertionSort archLe arches with hsorted
  have hperm : List.Perm sorted arches := List.perm_insertionSort archLe arches
  have hsortnodup : sorted.Nodup := (List.Perm.nodup_iff hperm).mpr harchnodup
  have hsortptx : ∀ x ∈ sorted, x.with_ptx = false :=
    fun x hx => harchptx x (hperm.mem_iff.mp hx)
  have hsortsorted : sorted.Pairwise archLe := List.sorted_insertionSort archLe arches
  have hsortkeysmem : ∀ x ∈ sorted, archKey x ∈ host := by
    intro x hx
    rw [← harchkeys]
    exact List.mem_map_of_mem archKey (hperm.mem_iff.mp hx)
  have hkeyslt : List.Pairwise pairLt (sorted.map archKey) := by
    rw [List.pairwise_map]
    have hcomb : sorted.Pairwise (fun a b => archLe a b ∧ a ≠ b) :=
      pairwise_and sorted hsortsorted hsortnodup
    refine pairwise_imp_of_mem sorted ?_ hcomb
    intro a b ha hb hab
    have hpa := hsortptx a ha
    have hpb := hsortptx b hb
    rcases a with ⟨am, an, ap⟩
    rcases b with ⟨bm, bn, bp⟩
    simp only at hpa hpb
    subst hpa; subst hpb
    rcases hab with ⟨hle, hne2⟩
    have hne3 : ¬(am = bm ∧ an = bn) := by
      rintro ⟨rfl, rfl⟩; exact hne2 rfl
    unfold archLe ptxN at hle
    unfold pairLt archKey
    simp only [if_false] at hle ⊢
    omega
  have hsortne : sorted ≠ [] := by
    intro h
    rw [h] at hperm
    have : arches = [] := hperm.symm.eq_nil
    rw [harches] at this
    exact hhostne (List.map_eq_nil_iff.mp this)
  obtain ⟨out, hout⟩ := setLastPtx_some sorted hsortne
  obtain ⟨hkeys, last, hlastq, hlastptx, hothers⟩ := setLastPtx_spec sorted out hout
  refine ⟨out, hout, ?_, ?_, last, hlastq, hlastptx, hothers hsortptx, ?_⟩
  · rw [hkeys]; exact hkeyslt
  · intro a ha
    have hone : archKey a ∈ out.map archKey := List.mem_map_of_mem archKey ha
    rw [hkeys] at hone
    rcases List.mem_map.mp hone with ⟨x, hx, hxa⟩
    have := hsortkeysmem x hx
    rw [hxa] at this
    exact (hhostmem _).mp this
  · intro a ha
    have houtlt : List.Pairwise pairLt (out.map archKey) := by rw [hkeys]; exact hkeyslt
    have hlastmap : (out.map archKey).getLast? = some (archKey last) :=
      getLast?_map_eq out archKey last hlastq
    exact key_last_ge (out.map archKey) houtlt (archKey last) hlastmap (archKey a)
      (List.mem_map_of_mem archKey ha)

/-- C4: when enumeration succeeds with at least one device, `cuda_arches`
returns a duplicate-free list strictly ascending in `(major, minor)`, every
pair clamped to at most the `TORCH_CUDA_ARCH_LIST` maximum, and exactly the
last — greatest — element has `with_ptx = true`. -/
theorem cuda_arches_host_detection (archList : List CudaArch) (m : CudaArch)
    (hm : listMaxArch archList = some m)
    (devs : List (Nat × Nat)) (hne : devs ≠ []) :
    ∃ out, cuda_arches archList (.ok ()) (devs.map .ok) = .ok out ∧
      List.Pairwise pairLt (out.map archKey) ∧
      (∀ a ∈ out, pairLe (archKey a) (m.major, m.minor)) ∧
      (∃ last, out.getLast? = some last ∧ last.with_ptx = true ∧
        (∀ a ∈ out, a = last ∨ a.with_ptx = false) ∧
        (∀ a ∈ out, pairLe (archKey a) (archKey last))) := by
  have hcol := collect_ok archList m hm devs
  have hpne : devs.map (fun v => pairMin v (m.major, m.minor)) ≠ [] := by
    intro h
    exact hne (List.map_eq_nil_iff.mp h)
  obtain ⟨out, hout, hlt, hmem, hlast⟩ :=
    pipeline_spec (devs.map fun v => pairMin v (m.major, m.minor)) hpne
  refine ⟨out, ?_, hlt, ?_, hlast⟩
  · unfold cuda_arches
    rw [hcol]
    dsimp only
    rw [hout]
  · intro a ha
    rcases List.mem_map.mp (hmem a ha) with ⟨v, _, hva⟩
    rw [← hva]
    exact pairMin_le v (m.major, m.minor)

/-- C4 witness: one device above and one below the configured ceiling. -/
theorem cuda_arches_host_detection_witness :
    ∃ out, cuda_arches [⟨8, 6, false⟩] (.ok ())
        ([(7, 5), (9, 0), (7, 5)].map .ok) = .ok out ∧
      List.Pairwise pairLt (out.map archKey) ∧
      (∀ a ∈ out, pairLe (archKey a) ((8 : Nat), (6 : Nat))) ∧
      (∃ last, out.getLast? = some last ∧ last.with_ptx = true ∧
        (∀ a ∈ out, a = last ∨ a.with_ptx = false) ∧
        (∀ a ∈ out, pairLe (archKey a) (archKey last))) :=
  cuda_arches_host_detection [⟨8, 6, false⟩] ⟨8, 6, false⟩ rfl
    [(7, 5), (9, 0), (7, 5)] (by decide)

/-- C9 counterexample: toolkit initialization succeeds and enumeration
yields zero devices, and `cuda_arches` panics (the `last_mut().unwrap()` on
an empty vector) instead of returning an error result. -/
theorem cuda_arches_empty_counterexample :
    cuda_arches [⟨8, 6, false⟩] (.ok ()) [] = .panic := rfl

/-- C9 (amended): with zero devices `cuda_arches` panics via `unwrap` on an
empty list rather than returning a `NoDeviceFound` error; initialization
errors and per-device read errors are surfaced verbatim as the returned
error. -/
theorem cuda_arches_failure_modes :
    (∀ archList, cuda_arches archList (.ok ()) [] = .panic) ∧
    (∀ archList devs e, cuda_arches archList (.error e) devs = .err e) ∧
    (∀ (archList : List CudaArch) (m : CudaArch), listMaxArch archList = some m →
      ∀ (pre : List (Nat × Nat)) (e : String) rest,
        cuda_arches archList (.ok ()) (pre.map .ok ++ .error e :: rest) = .err e) := by
  refine ⟨fun archList => rfl, fun archList devs e => rfl, ?_⟩
  intro archList m hm pre e rest
  have hcol : ∀ pre : List (Nat × Nat),
      collectDevices archList (pre.map .ok ++ .error e :: rest) = .err e := by
    intro pre
    induction pre with
    | nil => rfl
    | cons v ps ih =>
      simp only [List.map_cons, List.cons_append, collectDevices, hm, List.append_eq, ih]
  unfold cuda_arches
  rw [hcol pre]

/-- C9 witness: a device-read error after one good device is surfaced. -/
theorem cuda_arches_failure_modes_witness :
    cuda_arches [⟨8, 6, false⟩] (.ok ()) ([(7, 5)].map .ok ++ .error "boom" :: [])
      = .err "boom" :=
  cuda_arches_failure_modes.2.2 [⟨8, 6, false⟩] ⟨8, 6, false⟩ rfl [(7, 5)] "boom" []

/-- Value of a little-endian decimal digit list. -/
def ofDig : List Nat → Nat
  | [] => 0
  | d :: ds => d + 10 * ofDig ds

theorem decDigitsAux_val : ∀ fuel n, n ≤ fuel → ofDig (decDigitsAux fuel n) = n
  | 0, n, h => by
    have : n = 0 := by omega
    subst this; rfl
  | fuel + 1, n, h => by
    cases n with
    | zero => rfl
    | succ n' =>
      have hdiv : (n' + 1) / 10 ≤ fuel := by omega
      simp only [decDigitsAux, ofDig, decDigitsAux_val fuel ((n' + 1) / 10) hdiv]
      omega

theorem decDigitsAux_lt : ∀ fuel n d, d ∈ decDigitsAux fuel n → d < 10
  | 0, _, _, h => by simp [decDigitsAux] at h
  | fuel + 1, n, d, h => by
    cases n with
    | zero => simp [decDigitsAux] at h
    | succ n' =>
      simp only [decDigitsAux, List.mem_cons] at h
      rcases h with rfl | h
      · omega
      · exact decDigitsAux_lt fuel ((n' + 1) / 10) d h

theorem charToDigit_digitToChar (d : Nat) (h : d < 10) :
    charToDigit (digitToChar d) = d := by
  interval_cases d <;> decide

theorem isDigit_digitToChar (d : Nat) (h : d < 10) :
    (digitToChar d).isDigit = true := by
  interval_cases d <;> decide

theorem digitsVal_reverse_map :
    ∀ ds : List Nat, (∀ d ∈ ds, d < 10) →
      digitsVal ((ds.map digitToChar).reverse) = ofDig ds
  | [], _ => rfl
  | d :: ds, h => by
    have hrev : ((d :: ds).map digitToChar).reverse
        = (ds.map digitToChar).reverse ++ [digitToChar d] := by
      simp
    rw [hrev]
    unfold digitsVal
    rw [List.foldl_append]
    have ih := digitsVal_reverse_map ds (fun x hx => h x (List.mem_cons_of_mem d hx))
    unfold digitsVal at ih
    rw [ih]
    simp only [List.foldl_cons, List.foldl_nil,
      charToDigit_digitToChar d (h d (List.mem_cons_self d ds))]
    simp only [ofDig]
    omega

theorem digitsVal_decChars (n : Nat) : digitsVal (decChars n) = n := by
  unfold decChars
  split
  · next h => subst h; rfl
  · next h =>
    rw [digitsVal_reverse_map (decDigitsAux n n) (decDigitsAux_lt n n)]
    exact decDigitsAux_val n n le_rfl

theorem decChars_digits (n : Nat) : ∀ c ∈ decChars n, c.isDigit = true := by
  unfold decChars
  split
  · intro c hc
    simp only [List.mem_singleton] at hc
    subst hc; decide
  · intro c hc
    rw [List.mem_reverse] at hc
    rcases List.mem_map.mp hc with ⟨d, hd, rfl⟩
    exact isDigit_digitToChar d (decDigitsAux_lt n n d hd)

theorem decChars_ne_nil (n : Nat) : decChars n ≠ [] := by
  unfold decChars
  split
  · simp
  · next h =>
    cases hn : n with
    | zero => exact absurd hn h
    | succ n' =>
      subst hn
      simp [decDigitsAux]

theorem dot_not_mem_decChars (n : Nat) : '.' ∉ decChars n := by
  intro h
  have := decChars_digits n '.' h
  exact absurd this (by decide)

theorem splitChar_ne_nil : ∀ (c : Char) (l : List Char), splitChar c l ≠ []
  | _, [] => by simp [splitChar]
  | c, x :: xs => by
    unfold splitChar
    cases hs : splitChar c xs with
    | nil => simp
    | cons y ys => by_cases hx : x = c <;> simp [hx]

theorem splitChar_not_mem : ∀ (c : Char) (a : List Char), c ∉ a → splitChar c a = [a]
  | _, [], _ => rfl
  | c, x :: xs, h => by
    have hx : ¬x = c := fun he => h (he ▸ List.mem_cons_self x xs)
    have hs : splitChar c xs = [xs] :=
      splitChar_not_mem c xs (fun hm => h (List.mem_cons_of_mem x hm))
    simp [splitChar, hs, hx]

theorem splitChar_append_sep :
    ∀ (c : Char) (a b : List Char), c ∉ a →
      splitChar c (a ++ c :: b) = a :: splitChar c b
  | c, [], b, _ => by
    cases hs : splitChar c b with
    | nil => exact absurd hs (splitChar_ne_nil c b)
    | cons y ys => simp [splitChar, hs]
  | c, x :: a', b, h => by
    have hx : ¬x = c := fun he => h (he ▸ List.mem_cons_self x a')
    have ih := splitChar_append_sep c a' b (fun hm => h (List.mem_cons_of_mem x hm))
    show splitChar c (x :: (a' ++ c :: b)) = (x :: a') :: splitChar c b
    conv_lhs => unfold splitChar
    rw [ih]
    simp [hx]

theorem no_ptx_suffix (M N : Nat) :
    ¬List.IsSuffix ['+', 'P', 'T', 'X'] (decChars M ++ '.' :: decChars N) := by
  rintro ⟨t, ht⟩
  have hX : 'X' ∈ decChars M ++ '.' :: decChars N := by
    rw [← ht]; simp
  rcases List.mem_append.mp hX with h | h
  · exact absurd (decChars_digits M 'X' h) (by decide)
  · rcases List.mem_cons.mp h with h | h
    · exact absurd h (by decide)
    · exact absurd (decChars_digits N 'X' h) (by decide)

theorem toList_string_append (s t : String) : (s ++ t).toList = s.toList ++ t.toList := by
  cases s; cases t; rfl

theorem split_decChars (M N : Nat) :
    splitChar '.' (decChars M ++ '.' :: decChars N) = [decChars M, decChars N] := by
  rw [splitChar_append_sep '.' _ _ (dot_not_mem_decChars M),
    splitChar_not_mem '.' _ (dot_not_mem_decChars N)]

/-- Char-level round trip: `from_str` on a canonically rendered
`MAJOR.MINOR[+PTX]` token recovers the numbers and the PTX flag. -/
theorem from_str_chars (M N : Nat) (ptx : Bool) (hM : M < 2 ^ 32) (hN : N < 2 ^ 32)
    (s : String)
    (hs : s.toList = (decChars M ++ '.' :: decChars N)
        ++ (if ptx then ['+', 'P', 'T', 'X'] else [])) :
    CudaArch.from_str s = .ok ⟨M, N, ptx⟩ := by
  have h1 : decChars M ≠ [] ∧ decChars N ≠ [] ∧
      (∀ c ∈ decChars M, c.isDigit = true) ∧ (∀ c ∈ decChars N, c.isDigit = true) :=
    ⟨decChars_ne_nil M, decChars_ne_nil N, decChars_digits M, decChars_digits N⟩
  have h2 : digitsVal (decChars M) < 2 ^ 32 ∧ digitsVal (decChars N) < 2 ^ 32 := by
    rw [digitsVal_decChars, digitsVal_decChars]
    exact ⟨hM, hN⟩
  cases ptx with
  | false =>
    simp only [if_neg Bool.false_ne_true, List.append_nil] at hs
    have hdec : decide (List.IsSuffix ['+', 'P', 'T', 'X']
        (decChars M ++ '.' :: decChars N)) = false :=
      decide_eq_false (no_ptx_suffix M N)
    simp only [CudaArch.from_str, hs, hdec, Bool.false_eq_true, if_false,
      split_decChars]
    rw [if_pos h1, if_pos h2, digitsVal_decChars, digitsVal_decChars]
  | true =>
    simp only [if_pos trivial] at hs
    have hdec : decide (List.IsSuffix ['+', 'P', 'T', 'X']
        ((decChars M ++ '.' :: decChars N) ++ ['+', 'P', 'T', 'X'])) = true :=
      decide_eq_true ⟨decChars M ++ '.' :: decChars N, rfl⟩
    have hlen : ((decChars M ++ '.' :: decChars N) ++ ['+', 'P', 'T', 'X']).length - 4
        = (decChars M ++ '.' :: decChars N).length := by
      simp [List.length_append]
      omega
    simp only [CudaArch.from_str, hs, hdec, if_true, hlen, List.take_left,
      split_decChars]
    rw [if_pos h1, if_pos h2, digitsVal_decChars, digitsVal_decChars]

/-- C3: every canonically written `MAJOR.MINOR` token with optional `+PTX`
suffix parses to that major/minor with `with_ptx` iff the suffix is
present (for values representable in `u32`), and `nvcc_flag` always emits
`arch=compute_MN` with `code=sm_MN` without PTX and `code=compute_MN` with
it, `MN` being the decimal digits of major and minor concatenated; in
particular `"8.0"` and `"9.0+PTX"` yield the two flags of the spec's
scenario. -/
theorem cuda_arch_roundtrip (M N : Nat) (ptx : Bool)
    (hM : M < 2 ^ 32) (hN : N < 2 ^ 32) :
    CudaArch.from_str (natStr M ++ "." ++ natStr N ++ (if ptx then "+PTX" else ""))
      = .ok ⟨M, N, ptx⟩ ∧
    CudaArch.nvcc_flag ⟨M, N, ptx⟩
      = "-gencode=arch=compute_" ++ (natStr M ++ natStr N) ++ ",code="
        ++ (if ptx then "compute" else "sm") ++ "_" ++ (natStr M ++ natStr N) ∧
    CudaArch.from_str "8.0" = .ok ⟨8, 0, false⟩ ∧
    CudaArch.from_str "9.0+PTX" = .ok ⟨9, 0, true⟩ ∧
    CudaArch.nvcc_flag ⟨8, 0, false⟩ = "-gencode=arch=compute_80,code=sm_80" ∧
    CudaArch.nvcc_flag ⟨9, 0, true⟩ = "-gencode=arch=compute_90,code=compute_90" := by
  refine ⟨?_, ?_, by decide, by decide, by decide, by decide⟩
  · refine from_str_chars M N ptx hM hN _ ?_
    cases ptx <;>
      simp [toList_string_append, natStr, String.toList, List.append_assoc]
  · cases ptx <;> rfl

/-- C3 witness: the round trip evaluated at `7.5+PTX`. -/
theorem cuda_arch_roundtrip_witness :
    CudaArch.from_str (natStr 7 ++ "." ++ natStr 5 ++ (if true then "+PTX" else ""))
      = .ok ⟨7, 5, true⟩ ∧
    CudaArch.nvcc_flag ⟨7, 5, true⟩
      = "-gencode=arch=compute_" ++ (natStr 7 ++ natStr 5) ++ ",code="
        ++ (if true then "compute" else "sm") ++ "_" ++ (natStr 7 ++ natStr 5) ∧
    CudaArch.from_str "8.0" = .ok ⟨8, 0, false⟩ ∧
    CudaArch.from_str "9.0+PTX" = .ok ⟨9, 0, true⟩ ∧
    CudaArch.nvcc_flag ⟨8, 0, false⟩ = "-gencode=arch=compute_80,code=sm_80" ∧
    CudaArch.nvcc_flag ⟨9, 0, true⟩ = "-gencode=arch=compute_90,code=compute_90" :=
  cuda_arch_roundtrip 7 5 true (by decide) (by decide)

theorem splitChar_joinChar :
    ∀ (ls : List (List Char)), ls ≠ [] → (∀ l ∈ ls, ';' ∉ l) →
      splitChar ';' (joinChar ';' ls) = ls
  | [], h, _ => absurd rfl h
  | [x], _, hm => by
    show splitChar ';' x = [x]
    exact splitChar_not_mem ';' x (hm x (by simp))
  | x :: y :: ys, _, hm => by
    show splitChar ';' (x ++ ';' :: joinChar ';' (y :: ys)) = x :: y :: ys
    rw [splitChar_append_sep ';' x _ (hm x (by simp))]
    rw [splitChar_joinChar (y :: ys) (by simp) (fun l hl => hm l (List.mem_cons_of_mem x hl))]

theorem map_mk_toList (l : List String) : (l.map String.toList).map String.mk = l := by
  rw [List.map_map]
  have hid : (String.mk ∘ String.toList) = id := by
    funext s; cases s; rfl
  rw [hid, List.map_id]

theorem parseTokens_aliases :
    ∀ (aliases : AliasTable) (names : List String),
      (∀ n ∈ names, (lookupAlias aliases n).isSome) →
      parseTokens aliases names
        = .ok (names.map fun n => (lookupAlias aliases n).getD []).flatten
  | _, [], _ => rfl
  | aliases, n :: ns, h => by
    obtain ⟨l, hl⟩ := Option.isSome_iff_exists.mp (h n (by simp))
    simp only [parseTokens, hl,
      parseTokens_aliases aliases ns (fun m hm => h m (by simp [hm]))]
    simp [hl]

/-- C8: an architecture list made solely of alias names, joined with `;`,
parses to the concatenation of each alias's expansion — token order and
intra-alias order preserved, duplicates kept. -/
theorem parse_list_alias_homomorphism (aliases : AliasTable) (names : List String)
    (hne : names ≠ [])
    (halias : ∀ n ∈ names, (lookupAlias aliases n).isSome)
    (hsemi : ∀ n ∈ names, ';' ∉ n.toList) :
    CudaArch.parse_list aliases (joinSemis names)
      = .ok (names.map fun n => (lookupAlias aliases n).getD []).flatten := by
  have hlne : names.map String.toList ≠ [] := by
    intro h
    exact hne (List.map_eq_nil_iff.mp h)
  have hlm : ∀ l ∈ names.map String.toList, ';' ∉ l := by
    intro l hl
    rcases List.mem_map.mp hl with ⟨n, hn, rfl⟩
    exact hsemi n hn
  show parseTokens aliases
      ((splitChar ';' (joinChar ';' (names.map String.toList))).map String.mk)
    = .ok (names.map fun n => (lookupAlias aliases n).getD []).flatten
  rw [splitChar_joinChar (names.map String.toList) hlne hlm, map_mk_toList]
  exact parseTokens_aliases aliases names halias

/-- C8 witness: two aliases, one used twice, expansions concatenated in
order with duplicates kept. -/
theorem parse_list_alias_homomorphism_witness :
    CudaArch.parse_list
        [("A", [⟨8, 0, false⟩]), ("B", [⟨9, 0, true⟩, ⟨8, 0, false⟩])]
        (joinSemis ["B", "A", "B"])
      = .ok ((["B", "A", "B"].map fun n =>
          (lookupAlias [("A", [⟨8, 0, false⟩]), ("B", [⟨9, 0, true⟩, ⟨8, 0, false⟩])]
            n).getD []).flatten) :=
  parse_list_alias_homomorphism _ ["B", "A", "B"] (by decide) (by decide) (by decide)

end TorchBuild
